import Mathlib

/-!
Verification development for the MindStack ingestion-to-retrieval pipeline.

Strings from the TypeScript source are modelled as lists of characters
(`Str`), so that the regex-based splitting operations of the chunker can be
embedded as explicit recursive functions.  The whitespace class is the ASCII
subset of the JavaScript `\s` class; the Unicode space characters that `\s`
additionally matches are not modelled.  External collaborators (YouTube
transcript fetch, Bedrock Haiku summarisation, Titan embedding, pgvector
similarity search, S3 media fetch, Claude generation) are modelled as oracle
fields of environment records, as is standard for a shallow embedding.
-/

abbrev Str := List Char

/-- Char-level model of the JavaScript whitespace class (ASCII subset). -/
def isWs (c : Char) : Bool :=
  c = ' ' || c = '\t' || c = '\n' || c = '\r' || c = '\x0b' || c = '\x0c'

/-- Model of `String.prototype.trim`: drop whitespace at both ends. -/
def trim (l : Str) : Str :=
  ((l.dropWhile isWs).reverse.dropWhile isWs).reverse

/-- Word-counting scanner: `countWords` below counts the maximal runs of
non-whitespace characters, which is what
`text.trim().split(/\s+/).filter(Boolean).length` computes. -/
def cwGo : Bool → Str → Nat
  | _, [] => 0
  | inWord, c :: rest =>
    if isWs c then cwGo false rest
    else if inWord then cwGo true rest
    else 1 + cwGo true rest

/-- Model of `countWords` from the chunker source. -/
def countWords (l : Str) : Nat := cwGo false l

/-- Model of JavaScript `Array.prototype.join` with separator `sep`. -/
def joinSep (sep : Str) : List Str → Str
  | [] => []
  | [x] => x
  | x :: y :: rest => x ++ sep ++ joinSep sep (y :: rest)

/-- Sum of the word counts of a list of strings. -/
def sumWords (l : List Str) : Nat := (l.map countWords).sum

/-- Splitter for `text.split(/\n{2,}/)`: a maximal run of two or more
newlines separates paragraphs; a single newline is ordinary content.
`cur` holds the reversed accumulated current piece and `pending` counts the
newline run currently being scanned. -/
def splitParasGo : Str → Nat → Str → List Str
  | [], pending, cur =>
    if pending ≥ 2 then [cur.reverse, []]
    else [(List.replicate pending '\n' ++ cur).reverse]
  | c :: rest, pending, cur =>
    if c = '\n' then splitParasGo rest (pending + 1) cur
    else if pending ≥ 2 then cur.reverse :: splitParasGo rest 0 [c]
    else splitParasGo rest 0 (c :: (List.replicate pending '\n' ++ cur))

/-- Model of `text.split(/\n{2,}/)`. -/
def splitParas (l : Str) : List Str := splitParasGo l 0 []

/-- Paragraph list of the chunker:
`text.split(/\n{2,}/).map(p => p.trim()).filter(Boolean)`. -/
def paragraphs (text : Str) : List Str :=
  ((splitParas text).map trim).filter (fun p => !p.isEmpty)

/-- Does the reversed accumulator end (in source order) with a sentence
terminator, i.e. does the lookbehind `(?<=[.!?])` match here. -/
def endsSentence (cur : Str) : Bool :=
  match cur.head? with
  | some c => c = '.' || c = '!' || c = '?'
  | none => false

/-- Splitter for `text.split(/(?<=[.!?])\s+/)`: a maximal whitespace run
immediately preceded by `.`, `!` or `?` separates sentences.  `pending`
holds the reversed whitespace run being scanned and `cur` the reversed
current piece; whether the run separates is decided by the lookbehind on
`cur`, which is unchanged while the run is scanned. -/
def splitSentGo : Str → Str → Str → List Str
  | [], pending, cur =>
    if !pending.isEmpty && endsSentence cur then [cur.reverse, []]
    else [(pending ++ cur).reverse]
  | c :: rest, pending, cur =>
    if isWs c then splitSentGo rest (c :: pending) cur
    else if !pending.isEmpty && endsSentence cur then
      cur.reverse :: splitSentGo rest [] [c]
    else
      splitSentGo rest [] (c :: (pending ++ cur))

/-- Model of `splitBySentence` from the chunker source. -/
def splitSentences (p : Str) : List Str :=
  ((splitSentGo p [] []).map trim).filter (fun s => !s.isEmpty)

/-- Convenience conversion from a Lean string literal. -/
def lit (s : String) : Str := s.toList

/-- Lower-cased copy of a string, for the case-insensitive ignore patterns. -/
def lowerStr (s : Str) : Str := s.map Char.toLower

/-- Model of `IGNORE_PATTERNS`: each regex is an end-anchored, literal,
case-insensitive pattern, so each is a suffix test on the lower-cased name. -/
def ignorePatterns : List Str :=
  [lit "package-lock.json", lit "yarn.lock", lit "pnpm-lock.yaml",
   lit "composer.lock", lit "gemfile.lock", lit ".min.js", lit ".min.css"]

/-- Model of `IGNORE_PATTERNS.some(p => p.test(fileName))`. -/
def matchesIgnore (f : Str) : Bool :=
  ignorePatterns.any (fun p => p.isSuffixOf (lowerStr f))

/-- Options record of `chunkText`; `maxWords = none` models an absent
`maxWords` option, which defaults to `MAX_WORDS = 500`. -/
structure ChunkOptions where
  fileName : Option Str
  maxWords : Option Nat

/-- The auto-generated-file guard of `chunkText`: a present, non-empty
`fileName`, text longer than `IGNORE_SIZE_THRESHOLD = 50000`, and an
ignore-pattern match. -/
def ignoreGuard (text : Str) (opts : ChunkOptions) : Bool :=
  match opts.fileName with
  | some f => !f.isEmpty && decide (text.length > 50000) && matchesIgnore f
  | none => false

/-- Greedy sentence-packing loop of `chunkText` (the oversized-paragraph
branch), returning the flushed sentence buffers in emission order.  `buf`
is the current `sentenceBuf` and `cnt` the current `sentenceWordCount`. -/
def packLoop (mw : Nat) : List Str → List Str → Nat → List (List Str)
  | [], buf, _ => if !buf.isEmpty then [buf] else []
  | s :: rest, buf, cnt =>
    let sw := countWords s
    if cnt + sw > mw && !buf.isEmpty then
      buf :: packLoop mw rest [s] sw
    else
      packLoop mw rest (buf ++ [s]) (cnt + sw)

/-- Sentence buffers produced for one oversized paragraph. -/
def sentencePack (sentences : List Str) (mw : Nat) : List (List Str) :=
  packLoop mw sentences [] 0

/-- Main paragraph-accumulation loop of `chunkText`, emitting chunks in
order.  `current` is the running paragraph buffer and `wc` its word count;
the terminal flush of the source is the base case. -/
def chunkLoop (mw : Nat) : List Str → List Str → Nat → List Str
  | [], current, _ => if !current.isEmpty then [joinSep (lit "\n\n") current] else []
  | p :: rest, current, wc =>
    let pw := countWords p
    if pw > mw then
      (if !current.isEmpty then [joinSep (lit "\n\n") current] else []) ++
        (sentencePack (splitSentences p) mw).map (joinSep (lit " ")) ++
        chunkLoop mw rest [] 0
    else if wc + pw > mw then
      joinSep (lit "\n\n") current :: chunkLoop mw rest [p] pw
    else
      chunkLoop mw rest (current ++ [p]) (wc + pw)

/-- Chunk list for a given paragraph list, including the final
`chunks.filter(c => c.trim().length > 0)` of the source. -/
def chunkCore (paras : List Str) (mw : Nat) : List Str :=
  (chunkLoop mw paras [] 0).filter (fun c => !(trim c).isEmpty)

/-- Model of `chunkText` from the chunker source. -/
def chunkText (text : Str) (opts : ChunkOptions) : List Str :=
  let mw := opts.maxWords.getD 500
  if text.isEmpty || (trim text).isEmpty then []
  else if ignoreGuard text opts then []
  else chunkCore (paragraphs text) mw


/-!
Model of the asynchronous browser-ingestion pipeline
(`processBrowserCaptureAsync`).  External calls are oracle fields of
`IngestEnv`: `videoId` is the result of the YouTube URL-id extraction,
`transcript` the transcript fetch (`none` models a thrown, caught error),
`summarize` the Haiku summarisation call (`none` models a thrown, caught
error), and `embed i` the Titan embedding call for the `i`-th chunk
(`none` models a thrown, caught per-chunk error).  Times are modelled as
rationals; the JavaScript source divides millisecond offsets by 1000 in
floating point, modelled here as exact division.
-/

/-- One transcript segment: `offset` and `duration` are in milliseconds,
as returned by the transcript collaborator. -/
structure TranscriptSegment where
  offset : ℚ
  duration : ℚ
  text : Str
deriving DecidableEq

/-- The closed set of browser capture types. -/
inductive BrowserCaptureType where
  | WEB_TEXT
  | VIDEO_SEGMENT
  | USER_NOTE
  | RESOURCE_UPLOAD
deriving DecidableEq

/-- Arguments handed to the async pipeline by the ingress handler. -/
structure BrowserArgs where
  capture_id : Str
  capture_type : BrowserCaptureType
  text_content : Str
  source_url : Str
  video_start_time : Option ℚ
  video_end_time : Option ℚ

/-- Oracle environment for one pipeline run. -/
structure IngestEnv where
  videoId : Option Str
  transcript : Option (List TranscriptSegment)
  summarize : Option Str
  embed : Nat → Option (List ℚ)

/-- One row of the `capture_chunks` bulk insert. -/
structure ChunkRow where
  capture_id : Str
  chunk_text : Str
  embedding : List ℚ
  chunk_index : Nat
deriving DecidableEq

/-- Observable outcome of one pipeline run: the merged text after the
normalize step, whether the summarisation call was made, the persisted
summary (if any), the chunk list handed to the embed loop, the chunk
indices for which the embedding call was invoked, the rows handed to the
bulk insert, and whether the insert was invoked at all. -/
structure IngestResult where
  normalizedText : Str
  haikuCalled : Bool
  summaryPersisted : Option Str
  chunksUsed : List Str
  embedIndicesCalled : List Nat
  chunkRows : List ChunkRow
  insertCalled : Bool
deriving DecidableEq

/-- The time-range inclusion rule of the transcript filter:
`segStart >= video_start_time && segEnd <= video_end_time + 5`, applied
only when both bounds are supplied (`!== undefined`). -/
def segmentKeepRule (st en : Option ℚ) (g : TranscriptSegment) : Bool :=
  match st, en with
  | some s, some e =>
    decide (g.offset / 1000 ≥ s ∧ g.offset / 1000 + g.duration / 1000 ≤ e + 5)
  | _, _ => true

/-- The `relevantSegments` filter of the pipeline. -/
def keptSegments (args : BrowserArgs) (segs : List TranscriptSegment) :
    List TranscriptSegment :=
  segs.filter (segmentKeepRule args.video_start_time args.video_end_time)

/-- Separator inserted between pre-supplied text and the fetched
transcript. -/
def transcriptSep : Str := lit "\n\n[Transcript]\n"

/-- Step 1 of the pipeline: the merged `fullText` after the (optional)
transcript fetch for `VIDEO_SEGMENT` captures with a source URL. -/
def normalizeBrowserText (args : BrowserArgs) (env : IngestEnv) : Str :=
  if args.capture_type = BrowserCaptureType.VIDEO_SEGMENT && !args.source_url.isEmpty then
    match env.videoId with
    | some _ =>
      match env.transcript with
      | some segs =>
        let transcriptText := joinSep (lit " ") ((keptSegments args segs).map (·.text))
        if !args.text_content.isEmpty then
          args.text_content ++ transcriptSep ++ transcriptText
        else transcriptText
      | none => args.text_content
    | none => args.text_content
  else args.text_content

/-- Model of `processBrowserCaptureAsync`. -/
def runBrowserPipeline (args : BrowserArgs) (env : IngestEnv) : IngestResult :=
  let fullText := normalizeBrowserText args env
  if fullText.isEmpty || (trim fullText).isEmpty then
    { normalizedText := fullText, haikuCalled := false, summaryPersisted := none,
      chunksUsed := [], embedIndicesCalled := [], chunkRows := [],
      insertCalled := false }
  else
    let summary := env.summarize.getD []
    let textToEmbed := if !summary.isEmpty then summary else fullText
    let chunks := chunkText textToEmbed ⟨none, none⟩
    if chunks.length = 0 then
      { normalizedText := fullText, haikuCalled := true,
        summaryPersisted := env.summarize, chunksUsed := chunks,
        embedIndicesCalled := [], chunkRows := [], insertCalled := false }
    else
      let chunkRows := (List.range chunks.length).filterMap (fun i =>
        (env.embed i).map (fun v =>
          { capture_id := args.capture_id, chunk_text := chunks.getD i [],
            embedding := v, chunk_index := i }))
      { normalizedText := fullText, haikuCalled := true,
        summaryPersisted := env.summarize, chunksUsed := chunks,
        embedIndicesCalled := List.range chunks.length, chunkRows := chunkRows,
        insertCalled := !chunkRows.isEmpty }

/-!
Model of the chat route (`POST /api/chat`): the retrieval context builder
and the streaming answer coordinator.  Oracle fields of `ChatEnv` model
the Titan query embedding, the pgvector `match_captures` RPC, the parent
capture fetch, the per-attachment S3 media fetch, and the Claude
generation stream (its yielded deltas plus whether it completed normally).
-/

/-- One attachment row joined onto a fetched capture. -/
structure AttachmentRec where
  s3_url : Str
  file_type : Str
  file_name : Str
deriving DecidableEq

/-- One parent capture as fetched in step 3 of the chat route; the
to-one `sessions` relation is flattened to its `active_file_context`. -/
structure CaptureRec where
  id : Str
  capture_type : Str
  page_title : Option Str
  ai_markdown_summary : Option Str
  ide_code_diff : Option Str
  source_url : Option Str
  active_file_context : Option Str
  attachments : List AttachmentRec
deriving DecidableEq

/-- One matched chunk returned by the similarity search. -/
structure MatchedChunk where
  capture_id : Str
  chunk_text : Str
  similarity : ℚ
deriving DecidableEq

/-- A resolved media payload (Base64 body plus MIME type). -/
structure MediaRec where
  base64 : Str
  mimeType : Str
deriving DecidableEq

/-- Oracle environment for one chat request. -/
structure ChatEnv where
  queryEmbedOk : Bool
  rpcResult : Option (List MatchedChunk)
  captureFetch : Option (List CaptureRec)
  mediaFetch : Str → Option MediaRec
  genDeltas : List Str
  genOk : Bool

/-- The server-sent event variants of the chat stream. -/
inductive SSEEvent where
  | sources (urls : List Str)
  | delta (t : Str)
  | done
  | error (msg : Str)
deriving DecidableEq

/-- Shape of the final user message handed to generation: either the
retrieved-context block plus the question, or the fixed empty-state
instruction (an opaque prompt literal in the source, directing the model
to reply with the verbatim empty-state markdown). -/
inductive PromptText where
  | withContext (t : Str)
  | emptyState
deriving DecidableEq

/-- Observable outcome of one chat request. -/
structure ChatResult where
  events : List SSEEvent
  closed : Bool
  genCalled : Bool
  sourcesPayload : Option (List Str)
  prompt : Option PromptText

/-- First-occurrence deduplication, the model of `[...new Set(xs)]`. -/
def dedupFirst (l : List Str) : List Str :=
  l.foldl (fun acc x => if x ∈ acc then acc else acc ++ [x]) []

/-- Decimal numeral of a natural number, as a character list. -/
def natStr (n : Nat) : Str := (Nat.repr n).toList

/-- A conditionally rendered context line, following JavaScript truthiness
of the optional field (absent or empty renders nothing). -/
def optLine (pre : Str) (v : Option Str) : List Str :=
  match v with
  | some s => if !s.isEmpty then [pre ++ s] else []
  | none => []

/-- One `[DOCUMENT n]` context block of step 5 of the chat route. -/
def renderCaptureBlock (idx : Nat) (c : CaptureRec) (chunks : List MatchedChunk) : Str :=
  let relatedChunks := chunks.filter (fun mc => mc.capture_id == c.id)
  let parts : List Str :=
    [lit "[DOCUMENT " ++ natStr (idx + 1) ++ lit "]",
     lit "Source Type: " ++ c.capture_type] ++
    optLine (lit "Title: ") c.page_title ++
    optLine (lit "Source URL: ") c.source_url ++
    optLine (lit "[Summary]\n") c.ai_markdown_summary ++
    (match c.ide_code_diff with
     | some d => if !d.isEmpty then
         [lit "[Code Diff]\n```diff\n" ++ d ++ lit "\n```"] else []
     | none => []) ++
    optLine (lit "[Active File]\n") c.active_file_context ++
    (if !c.attachments.isEmpty then
      [lit "[Attachments]\n" ++ joinSep (lit "\n") (c.attachments.map (fun a =>
        lit "- [" ++ a.file_type ++ lit "] " ++ a.file_name ++
          lit " (URL: " ++ a.s3_url ++ lit ")"))]
     else []) ++
    (if !relatedChunks.isEmpty then
      lit "Content:" ::
        relatedChunks.map (fun ch => lit "--- Fragment ---\n" ++ ch.chunk_text)
     else [])
  joinSep (lit "\n") parts

/-- The bounded context text of step 5: the first 15 capture blocks joined
by the divider. -/
def buildContextText (captures : List CaptureRec) (chunks : List MatchedChunk) : Str :=
  let contextParts := captures.enum.map (fun ic => renderCaptureBlock ic.1 ic.2 chunks)
  joinSep (lit "\n\n-------------------\n\n") (contextParts.take 15)

/-- The retrieved-context user message of step 6. -/
def ragUserText (contextText query : Str) : Str :=
  lit "## Retrieved Context\n\n" ++ contextText ++
    lit "\n\n---\n\n## Question\n" ++ query

/-- Model of the stream body of the chat route: the event trace it emits, the
close flag, whether generation was invoked, the payload of the emitted
`sources` event (if emitted), and the user prompt shape handed to
generation (if built). -/
def chatRun (query : Str) (env : ChatEnv) : ChatResult :=
  if !env.queryEmbedOk then
    { events := [SSEEvent.error (lit "Failed to embed query")], closed := true,
      genCalled := false, sourcesPayload := none, prompt := none }
  else
    match env.rpcResult with
    | none =>
      { events := [SSEEvent.error (lit "Vector search failed")], closed := true,
        genCalled := false, sourcesPayload := none, prompt := none }
    | some matched =>
      let chunks := matched
      let captureIds := dedupFirst (chunks.map (·.capture_id))
      let captures := if !captureIds.isEmpty then env.captureFetch.getD [] else []
      let allS3Urls := captures.flatMap (fun c => c.attachments.map (·.s3_url))
      let contextText := buildContextText captures chunks
      let prompt := if !contextText.isEmpty then
          PromptText.withContext (ragUserText contextText query)
        else PromptText.emptyState
      { events := SSEEvent.sources allS3Urls ::
          (env.genDeltas.map SSEEvent.delta ++
            (if env.genOk then [SSEEvent.done]
             else [SSEEvent.error (lit "An unexpected error occurred")])),
        closed := true, genCalled := true, sourcesPayload := some allS3Urls,
        prompt := some prompt }

/-- A 50,001-character text used to exercise the size threshold. -/
def bigText : Str := List.replicate 50001 'x'

/-- A transcript segment at 12s--15s used by the C7 witness. -/
def c7Seg : TranscriptSegment := ⟨12000, 3000, lit "hi"⟩

/-- Concrete VIDEO_SEGMENT args for the C7 witness. -/
def c7Args : BrowserArgs :=
  ⟨lit "cap7", BrowserCaptureType.VIDEO_SEGMENT, lit "pre", lit "u",
    some 10, some 20⟩

/-- Concrete oracle environment for the C7 witness. -/
def c7Env : IngestEnv := ⟨some (lit "X"), some [c7Seg], none, fun _ => some []⟩

/-- A 501-word text (500-word sentence plus one), chunked into two chunks
by the default 500-word cap. -/
def c3Text : Str := (List.replicate 499 (lit "a ")).flatten ++ lit "a. b"

/-- Concrete capture args for the C3 witness. -/
def c3Args : BrowserArgs :=
  ⟨lit "cap3", BrowserCaptureType.USER_NOTE, c3Text, [], none, none⟩

/-- Oracle environment whose embedding call fails exactly at index 0. -/
def c3EnvOne : IngestEnv :=
  ⟨none, none, none, fun i => if i = 0 then none else some []⟩

/-- Oracle environment whose embedding call always fails. -/
def c3EnvAll : IngestEnv := ⟨none, none, none, fun _ => none⟩

/-- Terminal stream events (`done` or `error`). -/
def isTerminalEv : SSEEvent → Bool
  | SSEEvent.done => true
  | SSEEvent.error _ => true
  | _ => false

/-- Oracle environment of a chat request with a successful, empty
similarity search and a one-delta successful generation. -/
def c2Env : ChatEnv := ⟨true, some [], none, fun _ => none, [lit "hi"], true⟩

/-- Oracle environment of a chat request whose similarity search succeeds
with zero matched chunks. -/
def c1Env : ChatEnv := ⟨true, some [], none, fun _ => none, [], true⟩

/-!  Word-count lemmas: counting words distributes over concatenation with
an all-whitespace separator, hence over JavaScript joins with `"\n\n"` and
`" "`. -/

/-- The scanner state after a string: in-word iff its last character is
not whitespace (or the initial state if the string is empty). -/
def endSt (st : Bool) (l : Str) : Bool := l.foldl (fun _ c => !isWs c) st

theorem cwGo_append (a : Str) : ∀ (st : Bool) (b : Str),
    cwGo st (a ++ b) = cwGo st a + cwGo (endSt st a) b := by
  induction a with
  | nil => intro st b; simp [cwGo, endSt]
  | cons c rest ih =>
    intro st b
    by_cases hc : isWs c
    · simp [cwGo, hc, endSt, List.foldl_cons, ih]
    · cases st <;> (simp [cwGo, hc, endSt, List.foldl_cons, ih]; try omega)

theorem cwGo_ws_zero (s : Str) (hs : ∀ c ∈ s, isWs c = true) (st : Bool) :
    cwGo st s = 0 := by
  induction s generalizing st with
  | nil => simp [cwGo]
  | cons c rest ih =>
    have hc := hs c (by simp)
    simp [cwGo, hc]
    exact ih (fun d hd => hs d (by simp [hd])) false

theorem endSt_ws (s : Str) (hne : s ≠ []) (hs : ∀ c ∈ s, isWs c = true)
    (st : Bool) : endSt st s = false := by
  induction s generalizing st with
  | nil => exact absurd rfl hne
  | cons c rest ih =>
    have hc := hs c (by simp)
    rcases Decidable.em (rest = []) with h | h
    · simp [endSt, h, List.foldl_cons, hc]
    · simpa [endSt, List.foldl_cons] using
        ih h (fun d hd => hs d (by simp [hd])) (!isWs c)

theorem countWords_append_ws (a sep b : Str) (hne : sep ≠ [])
    (hws : ∀ c ∈ sep, isWs c = true) :
    countWords (a ++ sep ++ b) = countWords a + countWords b := by
  have h1 : a ++ sep ++ b = a ++ (sep ++ b) := by simp
  rw [countWords, h1, cwGo_append, cwGo_append, cwGo_ws_zero sep hws,
    endSt_ws sep hne hws, countWords, countWords]
  omega

theorem countWords_joinSep (sep : Str) (hne : sep ≠ [])
    (hws : ∀ c ∈ sep, isWs c = true) :
    ∀ ps : List Str, countWords (joinSep sep ps) = sumWords ps := by
  intro ps
  induction ps with
  | nil => simp [joinSep, sumWords, countWords, cwGo]
  | cons x rest ih =>
    cases rest with
    | nil => simp [joinSep, sumWords]
    | cons y t =>
      rw [joinSep, countWords_append_ws x sep _ hne hws, ih]
      simp [sumWords]

theorem ws_nn : ∀ c ∈ lit "\n\n", isWs c = true := by decide

theorem ws_sp : ∀ c ∈ lit " ", isWs c = true := by decide

theorem countWords_join_nn (ps : List Str) :
    countWords (joinSep (lit "\n\n") ps) = sumWords ps :=
  countWords_joinSep _ (by decide) ws_nn ps

theorem countWords_join_sp (ps : List Str) :
    countWords (joinSep (lit " ") ps) = sumWords ps :=
  countWords_joinSep _ (by decide) ws_sp ps

theorem sumWords_append (a b : List Str) :
    sumWords (a ++ b) = sumWords a + sumWords b := by
  simp [sumWords]

/-!  Trim lemmas: trimming is idempotent, so the paragraph and sentence
lists of the chunker consist of trimmed, non-empty strings. -/

theorem headDropWhileFalse (p : Char → Bool) (l : Str) (c : Char)
    (h : (l.dropWhile p).head? = some c) : p c = false := by
  have hh := List.head?_dropWhile_not p l
  rw [h] at hh
  exact hh

theorem dropWhileEqSelf (p : Char → Bool) (l : Str)
    (h : ∀ c, l.head? = some c → p c = false) : l.dropWhile p = l := by
  cases l with
  | nil => rfl
  | cons a t =>
    have := h a rfl
    simp [List.dropWhile_cons, this]

theorem dropWhileIdem (p : Char → Bool) (l : Str) :
    (l.dropWhile p).dropWhile p = l.dropWhile p :=
  dropWhileEqSelf p _ (fun c hc => headDropWhileFalse p l c hc)

theorem getLastOfSuffix {z w : Str} (h : z <:+ w) (hz : z ≠ []) :
    z.getLast? = w.getLast? := by
  obtain ⟨t, rfl⟩ := h
  rw [List.getLast?_append]
  cases hlz : z.getLast? with
  | none => exact absurd (List.getLast?_eq_none_iff.mp hlz) hz
  | some a => simp

theorem trim_trim (l : Str) : trim (trim l) = trim l := by
  unfold trim
  generalize hy : l.dropWhile isWs = y
  generalize hz : y.reverse.dropWhile isWs = z
  by_cases hzn : z = []
  · simp [hzn]
  · have hsuff : z <:+ y.reverse := by rw [← hz]; exact List.dropWhile_suffix isWs
    have hlast : z.getLast? = y.head? := by
      rw [getLastOfSuffix hsuff hzn]
      exact List.getLast?_reverse y
    have hzrevhead : ∀ c, z.reverse.head? = some c → isWs c = false := by
      intro c hc
      rw [List.head?_reverse, hlast] at hc
      rw [← hy] at hc
      exact headDropWhileFalse isWs l c hc
    have h2 : z.reverse.dropWhile isWs = z.reverse :=
      dropWhileEqSelf _ _ hzrevhead
    rw [h2, List.reverse_reverse]
    rw [← hz, dropWhileIdem]

theorem memParagraphs {text p : Str} (h : p ∈ paragraphs text) :
    trim p = p ∧ p ≠ [] := by
  unfold paragraphs at h
  rw [List.mem_filter] at h
  obtain ⟨hmem, hne⟩ := h
  rw [List.mem_map] at hmem
  obtain ⟨q, _, rfl⟩ := hmem
  refine ⟨trim_trim q, ?_⟩
  simpa using hne

theorem memSplitSentences {p s : Str} (h : s ∈ splitSentences p) :
    trim s = s ∧ s ≠ [] := by
  unfold splitSentences at h
  rw [List.mem_filter] at h
  obtain ⟨hmem, hne⟩ := h
  rw [List.mem_map] at hmem
  obtain ⟨q, _, rfl⟩ := hmem
  refine ⟨trim_trim q, ?_⟩
  simpa using hne

/-!  Sentence-packing lemmas: the packing loop partitions the sentence
list, a sentence above the word cap always sits alone in its buffer, and
under the cap hypothesis the total of every buffer stays within the cap. -/

theorem packLoopFlatten (mw : Nat) (xs : List Str) :
    ∀ (buf : List Str) (cnt : Nat),
      (packLoop mw xs buf cnt).flatten = buf ++ xs := by
  induction xs with
  | nil =>
    intro buf cnt
    by_cases hb : buf.isEmpty
    · have : buf = [] := by simpa using hb
      simp [packLoop, this]
    · simp [packLoop, hb]
  | cons s rest ih =>
    intro buf cnt
    simp only [packLoop]
    by_cases hcond : (decide (cnt + countWords s > mw) && !buf.isEmpty) = true
    · rw [if_pos hcond, List.flatten_cons, ih]
      simp
    · rw [if_neg hcond, ih]
      simp

theorem sentencePackFlatten (mw : Nat) (xs : List Str) :
    (sentencePack xs mw).flatten = xs := by
  unfold sentencePack
  rw [packLoopFlatten]
  rfl

theorem packLoopMemBig (mw : Nat) {s : Str} (hs : countWords s > mw) :
    ∀ (xs buf : List Str) (cnt : Nat),
      cnt = sumWords buf → (s ∈ buf → buf = [s]) →
      ∀ B ∈ packLoop mw xs buf cnt, s ∈ B → B = [s] := by
  intro xs
  induction xs with
  | nil =>
    intro buf cnt _ hbuf B hB hsB
    simp only [packLoop] at hB
    split at hB
    · rw [List.mem_singleton.mp hB] at hsB ⊢
      exact hbuf hsB
    · exact absurd hB (List.not_mem_nil B)
  | cons x rest ih =>
    intro buf cnt hcnt hbuf B hB hsB
    simp only [packLoop] at hB
    by_cases hcond : (decide (cnt + countWords x > mw) && !buf.isEmpty) = true
    · rw [if_pos hcond] at hB
      rcases List.mem_cons.mp hB with rfl | hB'
      · exact hbuf hsB
      · refine ih [x] (countWords x) (by simp [sumWords]) ?_ B hB' hsB
        intro hsx
        rw [List.mem_singleton.mp hsx]
    · rw [if_neg hcond] at hB
      refine ih (buf ++ [x]) (cnt + countWords x)
        (by simp [sumWords_append, hcnt, sumWords]) ?_ B hB hsB
      intro hsmem
      rcases List.mem_append.mp hsmem with hsb | hsx
      · exfalso
        have hb := hbuf hsb
        rw [hb] at hcond hcnt
        simp only [sumWords, List.map_cons, List.map_nil, List.sum_cons,
          List.sum_nil, Nat.add_zero] at hcnt
        have hnot : ¬(cnt + countWords x > mw) := by
          intro hgt
          exact hcond (by simp [hgt])
        omega
      · rw [List.mem_singleton.mp hsx] at hs ⊢
        have hbe : buf.isEmpty = true := by
          by_contra hbne
          refine hcond ?_
          have : cnt + countWords x > mw := by omega
          simp [this, hbne]
        have hbnil : buf = [] := by simpa using hbe
        rw [hbnil]
        rfl

theorem packLoopBound (mw : Nat) :
    ∀ (xs : List Str), (∀ x ∈ xs, countWords x ≤ mw) →
      ∀ (buf : List Str) (cnt : Nat), cnt = sumWords buf → cnt ≤ mw →
      ∀ B ∈ packLoop mw xs buf cnt, sumWords B ≤ mw := by
  intro xs
  induction xs with
  | nil =>
    intro _ buf cnt hcnt hle B hB
    simp only [packLoop] at hB
    split at hB
    · rw [List.mem_singleton.mp hB, ← hcnt]
      exact hle
    · exact absurd hB (List.not_mem_nil B)
  | cons x rest ih =>
    intro hxs buf cnt hcnt hle B hB
    have hx : countWords x ≤ mw := hxs x (by simp)
    have hrest : ∀ y ∈ rest, countWords y ≤ mw := fun y hy => hxs y (by simp [hy])
    simp only [packLoop] at hB
    by_cases hcond : (decide (cnt + countWords x > mw) && !buf.isEmpty) = true
    · rw [if_pos hcond] at hB
      rcases List.mem_cons.mp hB with rfl | hB'
      · rw [← hcnt]
        exact hle
      · exact ih hrest [x] (countWords x) (by simp [sumWords]) hx B hB'
    · rw [if_neg hcond] at hB
      refine ih hrest (buf ++ [x]) (cnt + countWords x)
        (by simp [sumWords_append, hcnt, sumWords]) ?_ B hB
      by_cases hgt : cnt + countWords x > mw
      · have hbe : buf.isEmpty = true := by
          by_contra hbne
          exact hcond (by simp [hgt, hbne])
        have hbnil : buf = [] := by simpa using hbe
        rw [hbnil] at hcnt
        simp [sumWords] at hcnt
        omega
      · omega

/-!  Paragraph-loop lemmas: when every sentence of every paragraph fits the
word cap, every emitted chunk fits the cap; and the sentence buffers of an
oversized paragraph all surface as chunks of the main loop. -/

theorem chunkLoopBound (mw : Nat) :
    ∀ (ps : List Str), (∀ p ∈ ps, ∀ s ∈ splitSentences p, countWords s ≤ mw) →
      ∀ (current : List Str) (wc : Nat), wc = sumWords current → wc ≤ mw →
      ∀ c ∈ chunkLoop mw ps current wc, countWords c ≤ mw := by
  intro ps
  induction ps with
  | nil =>
    intro _ current wc hwc hle c hc
    simp only [chunkLoop] at hc
    split at hc
    · rw [List.mem_singleton.mp hc, countWords_join_nn, ← hwc]
      exact hle
    · exact absurd hc (List.not_mem_nil c)
  | cons p rest ih =>
    intro hps current wc hwc hle c hc
    have hpsent : ∀ s ∈ splitSentences p, countWords s ≤ mw :=
      fun s hs => hps p (by simp) s hs
    have hrest : ∀ q ∈ rest, ∀ s ∈ splitSentences q, countWords s ≤ mw :=
      fun q hq => hps q (by simp [hq])
    simp only [chunkLoop] at hc
    by_cases h1 : countWords p > mw
    · rw [if_pos h1] at hc
      rcases List.mem_append.mp hc with hc1 | hc2
      · rcases List.mem_append.mp hc1 with hcf | hcp
        · split at hcf
          · rw [List.mem_singleton.mp hcf, countWords_join_nn, ← hwc]
            exact hle
          · exact absurd hcf (List.not_mem_nil c)
        · obtain ⟨B, hB, rfl⟩ := List.mem_map.mp hcp
          rw [countWords_join_sp]
          exact packLoopBound mw (splitSentences p) hpsent [] 0 rfl
            (Nat.zero_le mw) B hB
      · exact ih hrest [] 0 rfl (Nat.zero_le mw) c hc2
    · rw [if_neg h1] at hc
      by_cases h2 : wc + countWords p > mw
      · rw [if_pos h2] at hc
        rcases List.mem_cons.mp hc with rfl | hc'
        · rw [countWords_join_nn, ← hwc]
          exact hle
        · exact ih hrest [p] (countWords p) (by simp [sumWords]) (by omega) c hc'
      · rw [if_neg h2] at hc
        exact ih hrest (current ++ [p]) (wc + countWords p)
          (by simp [sumWords_append, hwc, sumWords]) (by omega) c hc

theorem chunkLoopPackMem (mw : Nat) {p : Str} (hp : countWords p > mw) :
    ∀ (ps : List Str), p ∈ ps →
      ∀ B ∈ sentencePack (splitSentences p) mw,
      ∀ (current : List Str) (wc : Nat),
        joinSep (lit " ") B ∈ chunkLoop mw ps current wc := by
  intro ps
  induction ps with
  | nil => intro h; exact absurd h (List.not_mem_nil p)
  | cons q rest ih =>
    intro hmem B hB current wc
    simp only [chunkLoop]
    rcases List.mem_cons.mp hmem with rfl | hmem'
    · rw [if_pos hp]
      exact List.mem_append.mpr (Or.inl (List.mem_append.mpr
        (Or.inr (List.mem_map_of_mem _ hB))))
    · by_cases h1 : countWords q > mw
      · rw [if_pos h1]
        exact List.mem_append.mpr (Or.inr (ih hmem' B hB [] 0))
      · rw [if_neg h1]
        by_cases h2 : wc + countWords q > mw
        · rw [if_pos h2]
          exact List.mem_cons_of_mem _ (ih hmem' B hB [q] (countWords q))
        · rw [if_neg h2]
          exact ih hmem' B hB (current ++ [q]) (wc + countWords q)

/-- Claim C4: for every text and fileNameHint, if the hint is present, the
text exceeds the 50,000 threshold, and the hint matches a known
auto-generated-artifact pattern, then chunkText returns the empty
sequence regardless of the content of the text. -/
theorem chunkText_ignores_autogenerated (text f : Str) (mwOpt : Option Nat)
    (hf : f ≠ []) (hlen : text.length > 50000) (hm : matchesIgnore f = true) :
    chunkText text ⟨some f, mwOpt⟩ = [] := by
  unfold chunkText
  by_cases h1 : (text.isEmpty || (trim text).isEmpty) = true
  · rw [if_pos h1]
  · rw [if_neg h1, if_pos ?_]
    have hfe : f.isEmpty = false := by simpa using hf
    simp [ignoreGuard, hm, hlen, hfe]


/-- Witness for C4 at a concrete oversized lockfile. -/
theorem chunkText_ignores_autogenerated_witness :
    (lit "package-lock.json") ≠ [] ∧ bigText.length > 50000 ∧
      matchesIgnore (lit "package-lock.json") = true ∧
      chunkText bigText ⟨some (lit "package-lock.json"), none⟩ = [] := by
  have hlen : bigText.length > 50000 := by
    rw [bigText, List.length_replicate]
    omega
  exact ⟨by decide, hlen, by decide,
    chunkText_ignores_autogenerated _ _ none (by decide) hlen (by decide)⟩

/-- Claim C5: a single paragraph whose word count equals the cap exactly
yields one chunk containing that paragraph; a single paragraph one word
over the cap is split at sentence boundaries (the result is exactly the
greedy sentence packing) instead of being returned as one accumulated
chunk. -/
theorem chunkText_cap_boundary :
    (∀ (text : Str) (opts : ChunkOptions) (p : Str),
      opts.fileName = none → (trim text).isEmpty = false →
      paragraphs text = [p] →
      countWords p = opts.maxWords.getD 500 →
      chunkText text opts = [p]) ∧
    (∀ (text : Str) (opts : ChunkOptions) (p : Str),
      opts.fileName = none → (trim text).isEmpty = false →
      paragraphs text = [p] →
      countWords p = opts.maxWords.getD 500 + 1 →
      chunkText text opts =
        ((sentencePack (splitSentences p) (opts.maxWords.getD 500)).map
          (joinSep (lit " "))).filter (fun c => !(trim c).isEmpty)) := by
  have htext : ∀ text : Str, (trim text).isEmpty = false → text.isEmpty = false := by
    intro text htne
    cases htxt : text.isEmpty
    · rfl
    · exfalso
      have hnil : text = [] := by simpa using htxt
      rw [hnil] at htne
      simp [trim] at htne
  constructor
  · intro text opts p hf htne hpar hcw
    unfold chunkText
    rw [if_neg (by simp [htext text htne, htne]), if_neg (by simp [ignoreGuard, hf])]
    unfold chunkCore
    rw [hpar]
    simp only [chunkLoop]
    rw [if_neg (by omega), if_neg (by omega)]
    simp only [chunkLoop, List.nil_append]
    obtain ⟨htp, hpne⟩ := memParagraphs
      (show p ∈ paragraphs text by rw [hpar]; exact List.mem_singleton_self p)
    have hpe : p.isEmpty = false := by simpa using hpne
    simp [joinSep, htp, hpe]
  · intro text opts p hf htne hpar hcw
    unfold chunkText
    rw [if_neg (by simp [htext text htne, htne]), if_neg (by simp [ignoreGuard, hf])]
    unfold chunkCore
    rw [hpar]
    simp only [chunkLoop]
    rw [if_pos (by omega)]
    simp [chunkLoop]

/-- Witness for C5: with cap 2, `"a b"` is kept whole and `"a. b c"`
(three words) is split at the sentence boundary. -/
theorem chunkText_cap_boundary_witness :
    chunkText (lit "a b") ⟨none, some 2⟩ = [lit "a b"] ∧
      chunkText (lit "a. b c") ⟨none, some 2⟩ =
        ((sentencePack (splitSentences (lit "a. b c")) 2).map
          (joinSep (lit " "))).filter (fun c => !(trim c).isEmpty) :=
  ⟨chunkText_cap_boundary.1 (lit "a b") ⟨none, some 2⟩ (lit "a b") rfl
      (by decide) (by decide) (by decide),
    chunkText_cap_boundary.2 (lit "a. b c") ⟨none, some 2⟩ (lit "a. b c") rfl
      (by decide) (by decide) (by decide)⟩

/-- Claim C6: in the sentence-level split of an oversized paragraph, a
sentence whose own word count exceeds the cap is emitted whole as its own
chunk of chunkText, and every sentence buffer containing it is exactly the
singleton of that sentence (it never shares a chunk with a neighbouring
sentence). -/
theorem chunkText_long_sentence_isolated (text : Str) (opts : ChunkOptions)
    (p s : Str)
    (hguard1 : (text.isEmpty || (trim text).isEmpty) = false)
    (hguard2 : ignoreGuard text opts = false)
    (hp : p ∈ paragraphs text)
    (hpw : countWords p > opts.maxWords.getD 500)
    (hs : s ∈ splitSentences p)
    (hsw : countWords s > opts.maxWords.getD 500) :
    s ∈ chunkText text opts ∧
      ∀ B ∈ sentencePack (splitSentences p) (opts.maxWords.getD 500),
        s ∈ B → B = [s] := by
  have hball : ∀ B ∈ sentencePack (splitSentences p) (opts.maxWords.getD 500),
      s ∈ B → B = [s] := by
    intro B hB hsB
    exact packLoopMemBig (opts.maxWords.getD 500) hsw (splitSentences p) [] 0
      rfl (fun h => absurd h (List.not_mem_nil s)) B hB hsB
  refine ⟨?_, hball⟩
  have hflat : s ∈ (sentencePack (splitSentences p) (opts.maxWords.getD 500)).flatten := by
    rw [sentencePackFlatten]
    exact hs
  obtain ⟨B, hB, hsB⟩ := List.mem_flatten.mp hflat
  have hBs := hball B hB hsB
  rw [hBs] at hB
  have hmem : joinSep (lit " ") [s] ∈
      chunkLoop (opts.maxWords.getD 500) (paragraphs text) [] 0 :=
    chunkLoopPackMem (opts.maxWords.getD 500) hpw (paragraphs text) hp [s] hB [] 0
  obtain ⟨hts, hsne⟩ := memSplitSentences hs
  have hse : s.isEmpty = false := by simpa using hsne
  unfold chunkText
  rw [if_neg (by simp [hguard1] : ¬((text.isEmpty || (trim text).isEmpty) = true)),
    if_neg (by simp [hguard2] : ¬(ignoreGuard text opts = true))]
  unfold chunkCore
  refine List.mem_filter.mpr ⟨?_, ?_⟩
  · simpa [joinSep] using hmem
  · simp [hts, hse]

/-- Witness for C6: with cap 1, the two-word sentence of `"a b. c"` is an
oversized sentence inside an oversized paragraph and lands alone in its
chunk. -/
theorem chunkText_long_sentence_isolated_witness :
    lit "a b." ∈ chunkText (lit "a b. c") ⟨none, some 1⟩ ∧
      ∀ B ∈ sentencePack (splitSentences (lit "a b. c")) 1,
        lit "a b." ∈ B → B = [lit "a b."] :=
  chunkText_long_sentence_isolated (lit "a b. c") ⟨none, some 1⟩
    (lit "a b. c") (lit "a b.") (by decide) (by decide) (by decide)
    (by decide) (by decide) (by decide)

/-- Claim C10: for every input and every maxWords option, if every sentence
of every paragraph of the text has at most maxWords words, then every chunk
returned by chunkText has at most maxWords words. -/
theorem chunkText_word_cap_sound (text : Str) (opts : ChunkOptions)
    (h : ∀ p ∈ paragraphs text, ∀ s ∈ splitSentences p,
      countWords s ≤ opts.maxWords.getD 500) :
    ∀ c ∈ chunkText text opts, countWords c ≤ opts.maxWords.getD 500 := by
  intro c hc
  unfold chunkText at hc
  split at hc
  · exact absurd hc (List.not_mem_nil c)
  · split at hc
    · exact absurd hc (List.not_mem_nil c)
    · unfold chunkCore at hc
      exact chunkLoopBound (opts.maxWords.getD 500) (paragraphs text) h [] 0
        rfl (Nat.zero_le _) c (List.mem_filter.mp hc).1

/-- Witness for C10 at a concrete two-paragraph input under cap 2. -/
theorem chunkText_word_cap_sound_witness :
    (∀ p ∈ paragraphs (lit "a b\n\nc. d"), ∀ s ∈ splitSentences p,
      countWords s ≤ 2) ∧
    (∀ c ∈ chunkText (lit "a b\n\nc. d") ⟨none, some 2⟩, countWords c ≤ 2) :=
  ⟨by decide, chunkText_word_cap_sound (lit "a b\n\nc. d") ⟨none, some 2⟩ (by decide)⟩

/-!  Pipeline-result lemmas: the recorded normalized text, chunk rows and
insert flag are uniform across the branches of the pipeline. -/

theorem runNormalizedText (args : BrowserArgs) (env : IngestEnv) :
    (runBrowserPipeline args env).normalizedText = normalizeBrowserText args env := by
  unfold runBrowserPipeline
  dsimp only
  repeat' first | rfl | split

theorem runChunkRows (args : BrowserArgs) (env : IngestEnv) :
    (runBrowserPipeline args env).chunkRows =
      (List.range (runBrowserPipeline args env).chunksUsed.length).filterMap
        (fun i => (env.embed i).map (fun v =>
          ({ capture_id := args.capture_id,
             chunk_text := (runBrowserPipeline args env).chunksUsed.getD i [],
             embedding := v, chunk_index := i } : ChunkRow))) := by
  unfold runBrowserPipeline
  dsimp only
  repeat' first | rfl | split
  all_goals simp_all

theorem runInsertCalled (args : BrowserArgs) (env : IngestEnv) :
    (runBrowserPipeline args env).insertCalled =
      !(runBrowserPipeline args env).chunkRows.isEmpty := by
  unfold runBrowserPipeline
  dsimp only
  repeat' first | rfl | split

theorem filterMapIndexIsSome (e : Nat → Option (List ℚ)) :
    ∀ l : List Nat, (l.filterMap (fun i => (e i).map (fun _ => i))) =
      l.filter (fun i => (e i).isSome) := by
  intro l
  induction l with
  | nil => rfl
  | cons i rest ih =>
    cases he : e i with
    | none => simp [List.filterMap_cons, List.filter_cons, he, ih]
    | some v => simp [List.filterMap_cons, List.filter_cons, he, ih]

/-- Claim C8: a capture whose normalized text is empty or whitespace-only
halts the pipeline as a normal terminal state: zero chunk rows are produced
or persisted and the embedding collaborator is never called. -/
theorem pipeline_empty_text_halts (args : BrowserArgs) (env : IngestEnv)
    (h : trim ((runBrowserPipeline args env).normalizedText) = []) :
    (runBrowserPipeline args env).chunksUsed = [] ∧
      (runBrowserPipeline args env).embedIndicesCalled = [] ∧
      (runBrowserPipeline args env).chunkRows = [] ∧
      (runBrowserPipeline args env).insertCalled = false := by
  rw [runNormalizedText] at h
  have hcond : ((normalizeBrowserText args env).isEmpty ||
      (trim (normalizeBrowserText args env)).isEmpty) = true := by
    simp [h]
  unfold runBrowserPipeline
  dsimp only
  rw [if_pos hcond]
  exact ⟨rfl, rfl, rfl, rfl⟩

/-- Witness for C8 at a concrete whitespace-only capture. -/
theorem pipeline_empty_text_halts_witness :
    trim ((runBrowserPipeline
      ⟨lit "cap8", BrowserCaptureType.USER_NOTE, lit "  ", [], none, none⟩
      ⟨none, none, none, fun _ => some []⟩).normalizedText) = [] ∧
    (runBrowserPipeline
      ⟨lit "cap8", BrowserCaptureType.USER_NOTE, lit "  ", [], none, none⟩
      ⟨none, none, none, fun _ => some []⟩).embedIndicesCalled = [] ∧
    (runBrowserPipeline
      ⟨lit "cap8", BrowserCaptureType.USER_NOTE, lit "  ", [], none, none⟩
      ⟨none, none, none, fun _ => some []⟩).chunkRows = [] :=
  ⟨by decide,
    (pipeline_empty_text_halts _ _ (by decide)).2.1,
    (pipeline_empty_text_halts _ _ (by decide)).2.2.1⟩

/-- Claim C9: with non-empty normalized text and a failing summarisation
call, the pipeline does not abort: the summary remains absent, the chunked
text is the raw normalized text, and the embedding loop runs over every
resulting chunk. -/
theorem pipeline_summary_failure_fallback (args : BrowserArgs) (env : IngestEnv)
    (hne : trim ((runBrowserPipeline args env).normalizedText) ≠ [])
    (hsum : env.summarize = none) :
    (runBrowserPipeline args env).haikuCalled = true ∧
      (runBrowserPipeline args env).summaryPersisted = none ∧
      (runBrowserPipeline args env).chunksUsed =
        chunkText ((runBrowserPipeline args env).normalizedText) ⟨none, none⟩ ∧
      (runBrowserPipeline args env).embedIndicesCalled =
        List.range (runBrowserPipeline args env).chunksUsed.length := by
  rw [runNormalizedText] at hne ⊢
  have htne : (trim (normalizeBrowserText args env)).isEmpty = false := by
    simpa using hne
  have hte : (normalizeBrowserText args env).isEmpty = false := by
    cases hx : (normalizeBrowserText args env).isEmpty
    · rfl
    · exfalso
      have hnil : normalizeBrowserText args env = [] := by simpa using hx
      rw [hnil] at hne
      exact hne rfl
  unfold runBrowserPipeline
  dsimp only
  rw [if_neg (by simp [htne, hte])]
  simp only [hsum, Option.getD_none]
  rw [if_neg (show ¬((!List.isEmpty ([] : Str)) = true) by simp)]
  split
  · rename_i hlen
    refine ⟨rfl, rfl, rfl, ?_⟩
    rw [hlen]
    rfl
  · exact ⟨rfl, rfl, rfl, rfl⟩

/-- Witness for C9 at a concrete note whose summarisation fails. -/
theorem pipeline_summary_failure_fallback_witness :
    trim ((runBrowserPipeline
      ⟨lit "cap9", BrowserCaptureType.USER_NOTE, lit "hello world", [], none, none⟩
      ⟨none, none, none, fun _ => some []⟩).normalizedText) ≠ [] ∧
    (runBrowserPipeline
      ⟨lit "cap9", BrowserCaptureType.USER_NOTE, lit "hello world", [], none, none⟩
      ⟨none, none, none, fun _ => some []⟩).summaryPersisted = none ∧
    (runBrowserPipeline
      ⟨lit "cap9", BrowserCaptureType.USER_NOTE, lit "hello world", [], none, none⟩
      ⟨none, none, none, fun _ => some []⟩).chunksUsed =
      chunkText ((runBrowserPipeline
        ⟨lit "cap9", BrowserCaptureType.USER_NOTE, lit "hello world", [], none, none⟩
        ⟨none, none, none, fun _ => some []⟩).normalizedText) ⟨none, none⟩ :=
  ⟨by decide,
    (pipeline_summary_failure_fallback _ _ (by decide) rfl).2.1,
    (pipeline_summary_failure_fallback _ _ (by decide) rfl).2.2.1⟩

/-- Claim C7: for a VIDEO_SEGMENT capture with a source URL and both time
bounds supplied, a fetched transcript segment is kept iff its start offset
in seconds is at least the requested start and its end offset is at most
the requested end plus 5 seconds; the texts of the kept segments, joined in
order, are appended to any pre-supplied text. -/
theorem pipeline_transcript_range (args : BrowserArgs) (env : IngestEnv)
    (segs : List TranscriptSegment) (st en : ℚ)
    (hct : args.capture_type = BrowserCaptureType.VIDEO_SEGMENT)
    (hurl : args.source_url.isEmpty = false)
    (hvid : env.videoId.isSome = true)
    (htr : env.transcript = some segs)
    (hst : args.video_start_time = some st)
    (hen : args.video_end_time = some en) :
    (∀ g ∈ segs, (g ∈ keptSegments args segs ↔
      (st ≤ g.offset / 1000 ∧ g.offset / 1000 + g.duration / 1000 ≤ en + 5))) ∧
    (runBrowserPipeline args env).normalizedText =
      (if !args.text_content.isEmpty then
        args.text_content ++ transcriptSep ++
          joinSep (lit " ") ((keptSegments args segs).map (·.text))
       else joinSep (lit " ") ((keptSegments args segs).map (·.text))) := by
  constructor
  · intro g hg
    constructor
    · intro hk
      have hp := (List.mem_filter.mp hk).2
      simp only [segmentKeepRule, hst, hen, decide_eq_true_eq] at hp
      exact ⟨hp.1, hp.2⟩
    · intro hcond
      refine List.mem_filter.mpr ⟨hg, ?_⟩
      simp only [segmentKeepRule, hst, hen, decide_eq_true_eq]
      exact ⟨hcond.1, hcond.2⟩
  · rw [runNormalizedText]
    unfold normalizeBrowserText
    rw [if_pos (by simp [hct, hurl])]
    obtain ⟨v, hv⟩ := Option.isSome_iff_exists.mp hvid
    rw [hv, htr]

/-- Witness for C7 at a one-segment transcript within the window. -/
theorem pipeline_transcript_range_witness :
    (c7Seg ∈ keptSegments c7Args [c7Seg] ↔
      ((10 : ℚ) ≤ c7Seg.offset / 1000 ∧
        c7Seg.offset / 1000 + c7Seg.duration / 1000 ≤ (20 : ℚ) + 5)) ∧
    (runBrowserPipeline c7Args c7Env).normalizedText =
      (if !c7Args.text_content.isEmpty then
        c7Args.text_content ++ transcriptSep ++
          joinSep (lit " ") ((keptSegments c7Args [c7Seg]).map (·.text))
       else joinSep (lit " ") ((keptSegments c7Args [c7Seg]).map (·.text))) :=
  ⟨(pipeline_transcript_range c7Args c7Env [c7Seg] 10 20
      rfl rfl rfl rfl rfl rfl).1 c7Seg (by simp),
    (pipeline_transcript_range c7Args c7Env [c7Seg] 10 20
      rfl rfl rfl rfl rfl rfl).2⟩

/-- Claim C3: in the embed loop, a single failing chunk is omitted while
the other N-1 chunks are persisted with their original ordinals (the failed
index is a gap, no renumbering); if every chunk fails, no rows are built
and the insert is not invoked. -/
theorem pipeline_partial_embed (args : BrowserArgs) (env : IngestEnv) :
    (∀ j, j < (runBrowserPipeline args env).chunksUsed.length →
      env.embed j = none →
      (∀ i, i < (runBrowserPipeline args env).chunksUsed.length → i ≠ j →
        (env.embed i).isSome = true) →
      ((runBrowserPipeline args env).chunkRows.map (fun row => row.chunk_index) =
          (List.range (runBrowserPipeline args env).chunksUsed.length).filter
            (fun i => i != j) ∧
        (runBrowserPipeline args env).chunkRows.length =
          (runBrowserPipeline args env).chunksUsed.length - 1 ∧
        ∀ row ∈ (runBrowserPipeline args env).chunkRows,
          row.chunk_text =
            (runBrowserPipeline args env).chunksUsed.getD row.chunk_index [])) ∧
    ((∀ i, i < (runBrowserPipeline args env).chunksUsed.length →
        env.embed i = none) →
      (runBrowserPipeline args env).chunkRows = [] ∧
        (runBrowserPipeline args env).insertCalled = false) := by
  have hrows := runChunkRows args env
  have hmap : (runBrowserPipeline args env).chunkRows.map (fun row => row.chunk_index) =
      (List.range (runBrowserPipeline args env).chunksUsed.length).filter
        (fun i => (env.embed i).isSome) := by
    rw [hrows, List.map_filterMap, ← filterMapIndexIsSome env.embed]
    apply List.filterMap_congr
    intro i _
    cases env.embed i <;> rfl
  constructor
  · intro j hj hjnone hothers
    have hfeq : (List.range (runBrowserPipeline args env).chunksUsed.length).filter
        (fun i => (env.embed i).isSome) =
        (List.range (runBrowserPipeline args env).chunksUsed.length).filter
          (fun i => i != j) := by
      apply List.filter_congr
      intro i hi
      have hi' := List.mem_range.mp hi
      by_cases hij : i = j
      · subst hij
        simp [hjnone]
      · simp [hothers i hi' hij, hij]
    refine ⟨hmap.trans hfeq, ?_, ?_⟩
    · have h1 : (runBrowserPipeline args env).chunkRows.length =
          ((List.range (runBrowserPipeline args env).chunksUsed.length).filter
            (fun i => i != j)).length := by
        rw [← hmap.trans hfeq, List.length_map]
      rw [h1, ← List.Nodup.erase_eq_filter (List.nodup_range _) j,
        List.length_erase_of_mem (List.mem_range.mpr hj), List.length_range]
    · intro row hrow
      rw [hrows] at hrow
      obtain ⟨i, _, hsome⟩ := List.mem_filterMap.mp hrow
      cases he : env.embed i with
      | none =>
        rw [he] at hsome
        exact absurd hsome (by simp)
      | some v =>
        rw [he] at hsome
        have hrv : (⟨args.capture_id,
            (runBrowserPipeline args env).chunksUsed.getD i [], v, i⟩ : ChunkRow)
            = row := by
          simpa using hsome
        rw [← hrv]
  · intro hall
    have hnilmap : (runBrowserPipeline args env).chunkRows.map
        (fun row => row.chunk_index) = [] := by
      rw [hmap, List.filter_eq_nil_iff]
      intro i hi
      simp [hall i (List.mem_range.mp hi)]
    have hnil : (runBrowserPipeline args env).chunkRows = [] :=
      List.map_eq_nil_iff.mp hnilmap
    refine ⟨hnil, ?_⟩
    rw [runInsertCalled, hnil]
    rfl

set_option maxRecDepth 100000 in
/-- Witness for C3: two chunks, embedding failing at index 0 keeps only
index 1; embedding failing everywhere persists nothing. -/
theorem pipeline_partial_embed_witness :
    ((runBrowserPipeline c3Args c3EnvOne).chunkRows.map (fun row => row.chunk_index) =
        (List.range (runBrowserPipeline c3Args c3EnvOne).chunksUsed.length).filter
          (fun i => i != 0) ∧
      (runBrowserPipeline c3Args c3EnvOne).chunkRows.length =
        (runBrowserPipeline c3Args c3EnvOne).chunksUsed.length - 1 ∧
      ∀ row ∈ (runBrowserPipeline c3Args c3EnvOne).chunkRows,
        row.chunk_text =
          (runBrowserPipeline c3Args c3EnvOne).chunksUsed.getD row.chunk_index []) ∧
    ((runBrowserPipeline c3Args c3EnvAll).chunkRows = [] ∧
      (runBrowserPipeline c3Args c3EnvAll).insertCalled = false) :=
  ⟨(pipeline_partial_embed c3Args c3EnvOne).1 0 (by decide) rfl (by decide),
    (pipeline_partial_embed c3Args c3EnvAll).2 (fun i _ => rfl)⟩

theorem filterTerminalDeltas (ds : List Str) (t : SSEEvent)
    (ht : isTerminalEv t = true) :
    ((ds.map SSEEvent.delta) ++ [t]).filter isTerminalEv = [t] := by
  induction ds with
  | nil => simp [ht]
  | cons d rest ih => simpa [isTerminalEv] using ih

theorem getLastDeltas (a t : SSEEvent) (ds : List Str) :
    (a :: (ds.map SSEEvent.delta ++ [t])).getLast? = some t := by
  rw [show a :: (ds.map SSEEvent.delta ++ [t])
      = (a :: ds.map SSEEvent.delta) ++ [t] from rfl,
    List.getLast?_concat]

/-- Claim C2: every run closes the stream, emits exactly one terminal
event, as the last event; a successful run is exactly one `sources`, the
deltas in generation order, then one `done`; a failing run ends in one
`error`, preceded by `sources` (and the deltas emitted so far) only if the
failure happened after `sources` was emitted. -/
theorem chat_event_protocol (query : Str) (env : ChatEnv) :
    (chatRun query env).closed = true ∧
    ((chatRun query env).events.filter isTerminalEv).length = 1 ∧
    (∃ e, (chatRun query env).events.getLast? = some e ∧ isTerminalEv e = true) ∧
    (env.queryEmbedOk = true → env.rpcResult.isSome = true → env.genOk = true →
      ∃ u, (chatRun query env).events =
        SSEEvent.sources u :: (env.genDeltas.map SSEEvent.delta ++ [SSEEvent.done])) ∧
    (¬(env.queryEmbedOk = true ∧ env.rpcResult.isSome = true ∧ env.genOk = true) →
      (∃ msg, (chatRun query env).events = [SSEEvent.error msg]) ∨
      (∃ u msg, (chatRun query env).events =
        SSEEvent.sources u :: (env.genDeltas.map SSEEvent.delta ++ [SSEEvent.error msg]))) := by
  cases hq : env.queryEmbedOk with
  | false =>
    refine ⟨by simp [chatRun, hq], by simp [chatRun, hq, isTerminalEv], ?_, ?_, ?_⟩
    · exact ⟨SSEEvent.error (lit "Failed to embed query"),
        by simp [chatRun, hq], rfl⟩
    · intro h1
      exact absurd h1 (by simp)
    · intro _
      exact Or.inl ⟨lit "Failed to embed query", by simp [chatRun, hq]⟩
  | true =>
    cases hr : env.rpcResult with
    | none =>
      refine ⟨by simp [chatRun, hq, hr], by simp [chatRun, hq, hr, isTerminalEv],
        ?_, ?_, ?_⟩
      · exact ⟨SSEEvent.error (lit "Vector search failed"),
          by simp [chatRun, hq, hr], rfl⟩
      · intro _ h2
        exact absurd h2 (by simp)
      · intro _
        exact Or.inl ⟨lit "Vector search failed", by simp [chatRun, hq, hr]⟩
    | some matched =>
      cases hg : env.genOk with
      | true =>
        have hev : (chatRun query env).events =
            SSEEvent.sources ((if !(dedupFirst (matched.map (·.capture_id))).isEmpty
                then env.captureFetch.getD [] else []).flatMap
              (fun c => c.attachments.map (·.s3_url))) ::
              (env.genDeltas.map SSEEvent.delta ++ [SSEEvent.done]) := by
          simp [chatRun, hq, hr, hg]
        refine ⟨by simp [chatRun, hq, hr], ?_, ?_, ?_, ?_⟩
        · rw [hev]
          simp only [List.filter_cons]
          rw [show isTerminalEv (SSEEvent.sources _) = false from rfl,
            filterTerminalDeltas env.genDeltas SSEEvent.done rfl]
          simp
        · exact ⟨SSEEvent.done, by rw [hev]; exact getLastDeltas _ _ _, rfl⟩
        · intro _ _ _
          exact ⟨_, hev⟩
        · intro hno
          exact absurd ⟨rfl, by simp, rfl⟩ hno
      | false =>
        have hev : (chatRun query env).events =
            SSEEvent.sources ((if !(dedupFirst (matched.map (·.capture_id))).isEmpty
                then env.captureFetch.getD [] else []).flatMap
              (fun c => c.attachments.map (·.s3_url))) ::
              (env.genDeltas.map SSEEvent.delta ++
                [SSEEvent.error (lit "An unexpected error occurred")]) := by
          simp [chatRun, hq, hr, hg]
        refine ⟨by simp [chatRun, hq, hr], ?_, ?_, ?_, ?_⟩
        · rw [hev]
          simp only [List.filter_cons]
          rw [show isTerminalEv (SSEEvent.sources _) = false from rfl,
            filterTerminalDeltas env.genDeltas
              (SSEEvent.error (lit "An unexpected error occurred")) rfl]
          simp
        · exact ⟨SSEEvent.error (lit "An unexpected error occurred"),
            by rw [hev]; exact getLastDeltas _ _ _, rfl⟩
        · intro _ _ h3
          exact absurd h3 (by simp)
        · intro _
          exact Or.inr ⟨_, _, hev⟩

/-- Witness for C2: the concrete success run emits sources, one delta,
then done. -/
theorem chat_event_protocol_witness :
    ∃ u, (chatRun [] c2Env).events =
      SSEEvent.sources u ::
        (c2Env.genDeltas.map SSEEvent.delta ++ [SSEEvent.done]) :=
  (chat_event_protocol [] c2Env).2.2.2.1 rfl rfl rfl

/-- Counterexample for C1 as stated: with zero matched captures the
generation collaborator IS invoked (the route streams Claude with a fixed
empty-state instruction), refuting "the generation collaborator is not
called in this case". -/
theorem chat_empty_retrieval_counterexample :
    ¬((chatRun [] c1Env).genCalled = false) := by decide

/-- Claim C1 (amended): for every chat request whose similarity search
returns zero matched chunks, the emitted sources payload is the empty
list, the generation call IS invoked, and the user prompt handed to it is
the fixed empty-state instruction (which directs the model to reply with
the verbatim empty-state message) rather than a retrieved-context
prompt. -/
theorem chat_empty_retrieval_behavior (query : Str) (env : ChatEnv)
    (hq : env.queryEmbedOk = true) (hr : env.rpcResult = some []) :
    (chatRun query env).sourcesPayload = some [] ∧
      (chatRun query env).genCalled = true ∧
      (chatRun query env).prompt = some PromptText.emptyState := by
  simp only [chatRun, hq, hr]
  exact ⟨rfl, rfl, rfl⟩

/-- Witness for the amended C1 at the concrete zero-match environment. -/
theorem chat_empty_retrieval_behavior_witness :
    (chatRun [] c1Env).sourcesPayload = some [] ∧
      (chatRun [] c1Env).genCalled = true ∧
      (chatRun [] c1Env).prompt = some PromptText.emptyState :=
  chat_empty_retrieval_behavior [] c1Env rfl rfl
